import Mathlib

/-!
# perf_nbtree: the NBTree load/read driver

Shallow embedding of `perftests/perf_nbtree.cpp`. The driver is modelled as a
function from the outcomes of its external collaborators (the stream of
`rand()` results, the boolean returned by every `append`, the `(status, count)`
pairs returned by every iterator `read`) to the sequence of operations it
issues, in program order.

Machine integers: `size_t` is 64 bits wide and wraps (explicit `% SIZE_MOD`);
`int` is 32 bits wide; conversions between the two are explicit. The loop
counter `int i` runs over `1..N` with `N + 1 ≤ INT_MAX`, so it is a plain
natural number here.

Left out: the `Timer`, the console output (`console_logger`, the progress and
summary lines), `apr_initialize` and `set_logger`, which issue no operation on
the storage engine; the interleaving of the detached flush thread with the
main thread (`flush_fn` is given as a function of the flag it finds on a
wake-up); the floating-point accumulation `sum += xs[i]`.
-/

namespace PerfNBTree

/-! ## Types of the storage engine interface -/

/-- Series identifier, `aku_ParamId` (unsigned 64 bit). -/
abbrev aku_ParamId := Nat

/-- Sample timestamp, `aku_Timestamp` (unsigned 64 bit). -/
abbrev aku_Timestamp := Nat

/-- Block address, `LogicAddr` (unsigned 64 bit). -/
abbrev LogicAddr := Nat

/-- Modelled from the spec: the status type `aku_Status` is declared outside
this file; section 4.5 of the spec lists its values for `read`: Success while
more data remains, EndOfStream once exhausted, or an error status. -/
inductive aku_Status where
  | AKU_SUCCESS
  | AKU_ENO_DATA
  | AKU_EERROR (code : Nat)
  deriving DecidableEq, Repr

open aku_Status

/-- Number of values of `size_t` (64 bit): arithmetic on `size_t` is modulo this. -/
def SIZE_MOD : Nat := 18446744073709551616

/-- Largest value of `int` (32 bit). `rand()` returns an `int` in
`0..RAND_MAX`, so every outcome of `rand()` is at most `INT_MAX`. -/
def INT_MAX : Nat := 2147483647

/-- Conversion of an unsigned value to `int` (32 bit two's complement), as in
`int rix = rand() % nsamples`. -/
def toInt (x : Nat) : Int :=
  if x % 4294967296 < 2147483648 then ((x % 4294967296 : Nat) : Int)
  else ((x % 4294967296 : Nat) : Int) - 4294967296

/-- The handle returned by `FixedSizeFileStorage::open`, identified by the
arguments it was opened with. -/
structure BlockStore where
  metapath : String
  paths : List String
  deriving DecidableEq, Repr

/-- An `NBTreeExtentsList` as the driver sees it: the constructor arguments
`(id, addrs, bstore)`. -/
structure NBTreeExtentsList where
  id : aku_ParamId
  addrs : List LogicAddr
  bstore : BlockStore
  deriving DecidableEq, Repr

/-- The operations the driver issues, in the order of the statements of `main`.
Operations on `trees[ix]` record both the vector index `ix` and the id of the
series object found there. -/
inductive Op where
  /-- Call `FixedSizeFileStorage::create(metapath, volumes)` -/
  | create (metapath : String) (volumes : List (Nat × String))
  /-- Call `FixedSizeFileStorage::open(metapath, paths)` -/
  | openStore (metapath : String) (paths : List String)
  /-- Call `std::make_shared<NBTreeExtentsList>(id, empty, bstore)` -/
  | construct (id : aku_ParamId) (addrs : List LogicAddr)
  /-- Statement `rr = static_cast<size_t>(rand())`, with the value drawn -/
  | randSeries (value : Nat)
  /-- Call `trees[ix]->append(ts, value)` returning `ret` -/
  | append (ix : Nat) (id : aku_ParamId) (ts : aku_Timestamp) (value : Nat) (ret : Bool)
  /-- Statement `flush_needed = true` -/
  | setFlushNeeded
  /-- Call `cvar.notify_one()` -/
  | notify
  /-- Call `ids.push_back(id)` -/
  | idsPush (id : aku_ParamId)
  /-- Expression `rand() % nsamples`, with the value drawn and the divisor -/
  | randSample (value : Nat) (nsamples : Nat)
  /-- Statement `ids[rix] = id`, with the size of `ids` at that moment -/
  | idsWrite (rix : Int) (size : Nat) (id : aku_ParamId)
  /-- Statement `done = true` -/
  | setDone
  /-- Call `trees[ix]->search(start, stop)` -/
  | search (ix : Nat) (id : aku_ParamId) (start : aku_Timestamp) (stop : aku_Timestamp)
  /-- Call `it->read(ts.data(), xs.data(), capacity)` on the iterator of series `id` -/
  | read (id : aku_ParamId) (capacity : Nat) (status : aku_Status) (count : Nat)
  /-- Call `trees[ix]->close()` -/
  | close (ix : Nat) (id : aku_ParamId)
  /-- Call `bstore->flush()` -/
  | flush
  deriving DecidableEq, Repr

/-! ## Volumes and series construction (lines 52-74) -/

/-- Source: `std::string metapath = "/tmp/metavol.db"` -/
def metapath : String := "/tmp/metavol.db"

/-- Source: `std::vector<std::string> paths` -/
def paths : List String := ["/tmp/volume0.db", "/tmp/volume1.db"]

/-- Source: `std::vector<std::tuple<u32, std::string>> volumes`: the capacity
`1024*1024` is stored in a `u32`; `paths[0]` and `paths[1]` are read from
`paths` (an out-of-range index would yield the empty default here). -/
def volumes : List (Nat × String) :=
  [((1024 * 1024) % 4294967296, paths.getD 0 ""), ((1024 * 1024) % 4294967296, paths.getD 1 "")]

/-- Arguments of the call `FixedSizeFileStorage::create(metapath, volumes)`. -/
def createCall : String × List (Nat × String) := (metapath, volumes)

/-- Arguments of the call `FixedSizeFileStorage::open(metapath, paths)`. -/
def openCall : String × List String := (metapath, paths)

/-- Source: `auto bstore = FixedSizeFileStorage::open(metapath, paths)` -/
def bstore : BlockStore := { metapath := openCall.1, paths := openCall.2 }

/-- Source: `const int numids = 10000` -/
def numids : Nat := 10000

/-- The construction loop `for (int i = 0; i < numids; i++)`: for every
`i = 0 .. n-1` in order, a series is built from the id `i`, the empty address
list `empty` and `bstore`, and pushed at the back of `trees`. -/
def buildTrees (b : BlockStore) (n : Nat) : List NBTreeExtentsList :=
  (List.range n).map (fun i => { id := i, addrs := [], bstore := b })

/-- The vector `trees` after the construction loop. -/
def trees : List NBTreeExtentsList := buildTrees bstore numids

/-- The `construct` operations of the construction loop, in order. -/
def constructOps (ts : List NBTreeExtentsList) : List Op :=
  ts.map (fun t => Op.construct t.id t.addrs)

/-! ## The flush thread (lines 76-92) -/

/-- One wake-up of `flush_fn` after `cvar.wait(g)`: if `flush_needed` is set,
`bstore->flush()` is called and the flag is cleared. Returns the new flag and
the operations issued. -/
def flush_fn (flush_needed : Bool) : Bool × List Op :=
  if flush_needed then (false, [Op.flush]) else (flush_needed, [])

/-! ## The load loop (lines 94-125) -/

/-- Source: `const int N = 500000000` -/
def N : Nat := 500000000

/-- Local variables of the load loop, plus the number of `rand()` calls made
so far (the position in the stream of outcomes). -/
structure LoadState where
  rr : Nat
  nsamples : Nat
  ids : List aku_ParamId
  nrand : Nat
  deriving DecidableEq, Repr

/-- State before the first iteration: `rr = 0`, `nsamples = 0`, `ids` empty. -/
def LoadState.init : LoadState := { rr := 0, nsamples := 0, ids := [], nrand := 0 }

/-- Lines 104-106: `if (rr % 10000 == 0) rr = static_cast<size_t>(rand());`.
Returns the new `rr`, the new count of `rand()` calls and the operations. -/
def selectSeries (rand : Nat → Nat) (st : LoadState) : Nat × Nat × List Op :=
  if st.rr % 10000 = 0 then
    (rand st.nrand % SIZE_MOD, st.nrand + 1, [Op.randSeries (rand st.nrand)])
  else
    (st.rr, st.nrand, [])

/-- Lines 112-119: the reservoir step on `ids`. `none` is undefined behaviour:
a modulo by zero or a write outside `ids`. Returns the new `ids`, the new
count of `rand()` calls and the operations. -/
def sampleIds (rand : Nat → Nat) (nsamples : Nat) (ids : List aku_ParamId) (nrand : Nat)
    (id : aku_ParamId) : Option (List aku_ParamId × Nat × List Op) :=
  if nsamples < 10 then
    some (ids ++ [id], nrand, [Op.idsPush id])
  else if nsamples = 0 then
    none
  else
    let rix : Int := toInt ((rand nrand % SIZE_MOD) % nsamples)
    if rix < 10 then
      if 0 ≤ rix ∧ rix.toNat < ids.length then
        some (ids.set rix.toNat id, nrand + 1,
          [Op.randSample (rand nrand) nsamples, Op.idsWrite rix ids.length id])
      else
        none
    else
      some (ids, nrand + 1, [Op.randSample (rand nrand) nsamples])

/-- Lines 108-111: `if (trees[id]->append(ts, value)) { flush_needed = true;
cvar.notify_one(); }` where `t` is the object at `trees[ix]` and `ret` is what
`append` returned. -/
def appendStep (ix : Nat) (t : NBTreeExtentsList) (ts : aku_Timestamp) (value : Nat)
    (ret : Bool) : List Op :=
  Op.append ix t.id ts value ret :: (if ret then [Op.setFlushNeeded, Op.notify] else [])

/-- Body of the load loop for the loop counter `i` (lines 102-120).
`rand k` is the outcome of the `k`-th call of `rand()`, `appendRet i` is what
the `append` call of iteration `i` returns. The value `double value = i` is
represented by the integer `i` it holds. `none` is undefined behaviour: a
modulo by zero or an access outside `trees` or `ids`. -/
def loadBody (rand : Nat → Nat) (appendRet : Nat → Bool) (trees : List NBTreeExtentsList)
    (st : LoadState) (i : Nat) : Option (LoadState × List Op) :=
  let ts : aku_Timestamp := i
  let value : Nat := i
  let sel := selectSeries rand st
  if trees.length = 0 then none
  else
    let id : aku_ParamId := sel.1 % trees.length
    let rr := (sel.1 + 1) % SIZE_MOD
    match trees[id]? with
    | none => none
    | some t =>
      match sampleIds rand st.nsamples st.ids sel.2.1 id with
      | none => none
      | some (ids, nrand, ops) =>
        some ({ rr := rr, nsamples := (st.nsamples + 1) % SIZE_MOD, ids := ids, nrand := nrand },
          sel.2.2 ++ appendStep id t ts value (appendRet i) ++ ops)

/-- The load loop `for (int i = 1; i < n + 1; i++)`: state and operations after
the iterations `i = 1 .. n`. -/
def loadLoop (rand : Nat → Nat) (appendRet : Nat → Bool) (trees : List NBTreeExtentsList) :
    Nat → Option (LoadState × List Op)
  | 0 => some (LoadState.init, [])
  | n + 1 =>
    match loadLoop rand appendRet trees n with
    | none => none
    | some (st, tr) =>
      match loadBody rand appendRet trees st (n + 1) with
      | none => none
      | some (st', ops) => some (st', tr ++ ops)

/-- Operations of iteration `i` of the load loop alone (`i ≥ 1`). -/
def loadIterOps (rand : Nat → Nat) (appendRet : Nat → Bool) (trees : List NBTreeExtentsList)
    (i : Nat) : Option (List Op) :=
  match loadLoop rand appendRet trees (i - 1) with
  | none => none
  | some (st, _) =>
    match loadBody rand appendRet trees st i with
    | none => none
    | some (_, ops) => some ops

/-! ## The search/read loop (lines 134-152) -/

/-- Local variables of the read loop, plus the results of the `read` calls
made so far, in call order. -/
structure ReadState where
  status : aku_Status
  total_sum : Nat
  reads : List (aku_Status × Nat)
  deriving DecidableEq, Repr

/-- State before the first test of `while (status == AKU_SUCCESS)`. -/
def ReadState.init : ReadState := { status := AKU_SUCCESS, total_sum := 0, reads := [] }

/-- Body of the read loop (lines 143-148): `std::tie(status, sz) = it->read(..,
0x1000); total_sum += sz;`. `res k` is the result of call number `k` (from 0)
on this iterator. The accumulation of the `double sum` over `xs[0..sz)` is
floating point and is left out; it stays inside `xs` when `sz ≤ 0x1000`. -/
def readBody (res : Nat → aku_Status × Nat) (st : ReadState) : ReadState :=
  let r := res st.reads.length
  { status := r.1, total_sum := (st.total_sum + r.2) % SIZE_MOD, reads := st.reads ++ [r] }

/-- The read loop `while (status == AKU_SUCCESS)`, run for at most `fuel`
iterations. The loop has ended iff the resulting status is not `AKU_SUCCESS`. -/
def readLoop (res : Nat → aku_Status × Nat) : Nat → ReadState → ReadState
  | 0, st => st
  | fuel + 1, st =>
    if st.status = AKU_SUCCESS then readLoop res fuel (readBody res st) else st

/-- Body of `for (auto id: ids)` for the `j`-th element `id` of `ids`:
`trees[id]->search(N+1, 0)` then the read loop. `none` is an access outside
`trees` or a read loop not finished within `fuel` iterations. -/
def searchBody (trees : List NBTreeExtentsList) (iter : Nat → Nat → aku_Status × Nat)
    (fuel : Nat) (j : Nat) (id : aku_ParamId) : Option (List Op) :=
  match trees[id]? with
  | none => none
  | some t =>
    let fin := readLoop (iter j) fuel ReadState.init
    if fin.status = AKU_SUCCESS then none
    else some (Op.search id t.id (N + 1) 0 ::
      fin.reads.map (fun r => Op.read t.id 0x1000 r.1 r.2))

/-- The loop `for (auto id: ids)`, from position `j` of `ids` on. -/
def searchLoop (trees : List NBTreeExtentsList) (iter : Nat → Nat → aku_Status × Nat)
    (fuel : Nat) : Nat → List aku_ParamId → Option (List Op)
  | _, [] => some []
  | j, id :: rest =>
    match searchBody trees iter fuel j id with
    | none => none
    | some ops =>
      match searchLoop trees iter fuel (j + 1) rest with
      | none => none
      | some ops' => some (ops ++ ops')

/-! ## The close loop (lines 154-157) and `main` -/

/-- The loop `for (size_t i = 0; i < trees.size(); i++) trees[i]->close()`:
one `close` on the object at `trees[i]` for every index `i` below
`trees.size()`, in increasing order. -/
def closeLoop (trees : List NBTreeExtentsList) : List Op :=
  (List.range trees.length).filterMap (fun i => trees[i]?.map (fun t => Op.close i t.id))

/-- The driver: all operations of `main` in program order. `none` is undefined
behaviour in the load loop or a read loop that does not end within `fuel`. -/
def main (rand : Nat → Nat) (appendRet : Nat → Bool) (iter : Nat → Nat → aku_Status × Nat)
    (fuel : Nat) : Option (List Op) := do
  let setup := [Op.create createCall.1 createCall.2, Op.openStore openCall.1 openCall.2]
    ++ constructOps trees
  let (st, load) ← loadLoop rand appendRet trees N
  let reads ← searchLoop trees iter fuel 0 st.ids
  pure (setup ++ load ++ [Op.setDone, Op.notify] ++ reads ++ closeLoop trees)

/-! ## Predicates and observers used in the statements and proofs -/

/-- What the load loop needs of `trees`: 10000 entries, entry `i` has id `i`. -/
def TreesOk (ts : List NBTreeExtentsList) : Prop :=
  ts.length = 10000 ∧ ∀ i, i < 10000 → ∃ t, ts[i]? = some t ∧ t.id = i

/-- The `(timestamp, value)` pair of an `append` operation. -/
def Op.sample? : Op → Option (aku_Timestamp × Nat)
  | Op.append _ _ ts value _ => some (ts, value)
  | _ => none

/-- The index into `trees` used by an `append` operation. -/
def Op.appendIx? : Op → Option Nat
  | Op.append ix _ _ _ _ => some ix
  | _ => none

/-- The value drawn by a `rr = rand()` operation. -/
def Op.drawn? : Op → Option Nat
  | Op.randSeries v => some v
  | _ => none

/-- What holds of every operation of the first `n` iterations of the load loop. -/
def OpOk (n : Nat) : Op → Prop
  | Op.append ix id ts value _ => ix < 10000 ∧ id = ix ∧ 1 ≤ ts ∧ ts ≤ n ∧ value = ts
  | Op.randSample _ nsamples => 10 ≤ nsamples
  | Op.idsWrite rix size _ => 0 ≤ rix ∧ rix < 10 ∧ size = 10
  | Op.randSeries _ => True
  | Op.setFlushNeeded => True
  | Op.notify => True
  | Op.idsPush _ => True
  | _ => False

/-- Operations of the reservoir step: a push, a draw or a write into `ids`. -/
def IsSampleOp (nsamples : Nat) (id : aku_ParamId) (op : Op) : Prop :=
  op = Op.idsPush id
    ∨ (∃ v, op = Op.randSample v nsamples ∧ 10 ≤ nsamples)
    ∨ (∃ rix : Int, op = Op.idsWrite rix 10 id ∧ 0 ≤ rix ∧ rix < 10)

/-- Invariant of the load loop after `n` iterations. -/
structure LoadInv (n : Nat) (st : LoadState) (tr : List Op) : Prop where
  nsamples_eq : st.nsamples = n
  ids_length : st.ids.length = min n 10
  ids_mem : ∀ x ∈ st.ids, x < 10000 ∧ ∃ ts v r, Op.append x x ts v r ∈ tr
  ops_ok : ∀ op ∈ tr, OpOk n op
  samples : tr.filterMap Op.sample? = (List.range' 1 n).map (fun i => (i, i))

/-- The id selected in iteration `i` of the load loop: the index of its
`append` operation. -/
def selectedAt (rand : Nat → Nat) (appendRet : Nat → Bool) (trees : List NBTreeExtentsList)
    (i : Nat) : Option Nat :=
  (loadIterOps rand appendRet trees i).bind (fun ops => (ops.filterMap Op.appendIx?).head?)

/-- The value iteration `i` of the load loop drew for `rr`, if it drew one:
`some (some v)` when `rr = rand()` was executed with outcome `v`, `some none`
when the iteration kept `rr`. -/
def drawnAt (rand : Nat → Nat) (appendRet : Nat → Bool) (trees : List NBTreeExtentsList)
    (i : Nat) : Option (Option Nat) :=
  (loadIterOps rand appendRet trees i).map (fun ops => (ops.filterMap Op.drawn?).head?)

/-- Invariant of the read loop: the calls made are the first results of the
iterator in order, `status` is the status of the last call, `total_sum` is the
sum of the counts in `size_t` arithmetic, and every call but the last returned
`AKU_SUCCESS`. -/
structure ReadInv (res : Nat → aku_Status × Nat) (st : ReadState) : Prop where
  reads_eq : st.reads = (List.range st.reads.length).map res
  status_eq : st.status = (st.reads.getLast?.map Prod.fst).getD AKU_SUCCESS
  total_eq : st.total_sum = (st.reads.map Prod.snd).sum % SIZE_MOD
  prev_ok : ∀ k, k + 1 < st.reads.length → (res k).1 = AKU_SUCCESS

/-- Whether an operation is a `close`. -/
def Op.isClose : Op → Bool
  | Op.close _ _ => true
  | _ => false

/-- Operations of the search loop: a `search` or a `read`. -/
def IsSearchOp (op : Op) : Prop :=
  (∃ ix id a b, op = Op.search ix id a b) ∨ (∃ id c s n, op = Op.read id c s n)

/-! ## Concrete inputs -/

/-- A stream of `rand()` outcomes: 9998, 4, 7, 7, 7, ... -/
def randOutcomes : Nat → Nat := fun k => if k = 0 then 9998 else if k = 1 then 4 else 7

/-- An `append` that reports a sealed node on every second call. -/
def appendEven : Nat → Bool := fun i => i % 2 == 0

/-- Iterators that yield two full batches and then a last batch of 5 entries
with the end-of-stream status. -/
def iterThree : Nat → Nat → aku_Status × Nat :=
  fun _ k => if k < 2 then (AKU_SUCCESS, 4096) else (AKU_ENO_DATA, 5)

/-! ## Basic facts about the embedding -/

theorem buildTrees_length (b : BlockStore) (n : Nat) : (buildTrees b n).length = n := by
  simp [buildTrees]

theorem buildTrees_getElem? (b : BlockStore) (n i : Nat) (h : i < n) :
    (buildTrees b n)[i]? = some { id := i, addrs := [], bstore := b } := by
  simp [buildTrees, List.getElem?_map, List.getElem?_range h]

theorem trees_length : trees.length = 10000 := buildTrees_length bstore numids

theorem trees_getElem? (i : Nat) (h : i < 10000) :
    trees[i]? = some { id := i, addrs := [], bstore := bstore } :=
  buildTrees_getElem? bstore numids i h

theorem trees_getElem (i : Nat) (h : i < trees.length) :
    trees[i] = { id := i, addrs := [], bstore := bstore } := by
  have h1 := trees_getElem? i (by rw [← trees_length]; exact h)
  rw [List.getElem?_eq_getElem h] at h1
  exact Option.some.inj h1

theorem trees_ok : TreesOk trees :=
  ⟨trees_length, fun i h => ⟨_, trees_getElem? i h, rfl⟩⟩

theorem toInt_of_lt (x : Nat) (h : x < 2147483648) : toInt x = (x : Int) := by
  have h1 : x % 4294967296 = x := Nat.mod_eq_of_lt (by omega)
  simp [toInt, h1, h]

/-- The reservoir step never fails while `nsamples` fits an `int` and `ids`
holds `min nsamples 10` entries; it keeps that shape, only ever stores `id`,
draws `rand()` only with a divisor of at least 10 and writes only inside `ids`. -/
theorem sampleIds_spec (rand : Nat → Nat) (nsamples : Nat) (ids : List aku_ParamId)
    (nrand : Nat) (id : aku_ParamId) (hn : nsamples ≤ INT_MAX)
    (hl : ids.length = min nsamples 10) :
    ∃ ids' nrand' ops, sampleIds rand nsamples ids nrand id = some (ids', nrand', ops)
      ∧ ids'.length = min (nsamples + 1) 10
      ∧ (∀ x ∈ ids', x ∈ ids ∨ x = id)
      ∧ (nsamples < 10 → ids' = ids ++ [id])
      ∧ (∀ op ∈ ops, op = Op.idsPush id
          ∨ (∃ v, op = Op.randSample v nsamples ∧ 10 ≤ nsamples)
          ∨ (∃ rix : Int, op = Op.idsWrite rix 10 id ∧ 0 ≤ rix ∧ rix < 10)) := by
  unfold sampleIds
  by_cases h10 : nsamples < 10
  · refine ⟨ids ++ [id], nrand, [Op.idsPush id], by simp [h10], ?_, ?_, fun _ => rfl, ?_⟩
    · simp [hl]; omega
    · intro x hx
      rcases List.mem_append.1 hx with h | h
      · exact Or.inl h
      · exact Or.inr (by simpa using h)
    · intro op hop
      exact Or.inl (by simpa using hop)
  · have h0 : nsamples ≠ 0 := by omega
    have hlen : ids.length = 10 := by rw [hl]; omega
    have hlt : (rand nrand % SIZE_MOD) % nsamples < 2147483648 := by
      have := Nat.mod_lt (rand nrand % SIZE_MOD) (Nat.pos_of_ne_zero h0)
      unfold INT_MAX at hn
      omega
    have hrix : toInt ((rand nrand % SIZE_MOD) % nsamples)
        = (((rand nrand % SIZE_MOD) % nsamples : Nat) : Int) := toInt_of_lt _ hlt
    simp only [h10, h0, if_false, hrix]
    by_cases hr : (((rand nrand % SIZE_MOD) % nsamples : Nat) : Int) < 10
    · have hr' : (rand nrand % SIZE_MOD) % nsamples < 10 := by exact_mod_cast hr
      have hin : (0 : Int) ≤ (((rand nrand % SIZE_MOD) % nsamples : Nat) : Int)
          ∧ ((((rand nrand % SIZE_MOD) % nsamples : Nat) : Int)).toNat < ids.length := by
        refine ⟨Int.natCast_nonneg _, ?_⟩
        rw [Int.toNat_natCast, hlen]; exact hr'
      refine ⟨_, _, _, by simp only [hr, hin, if_true, and_self]; rfl, ?_, ?_, fun h => h.elim, ?_⟩
      · simp [hlen]; omega
      · intro x hx
        rcases List.mem_or_eq_of_mem_set hx with h | h
        · exact Or.inl h
        · exact Or.inr h
      · intro op hop
        simp only [List.mem_cons, List.mem_singleton, List.not_mem_nil, or_false] at hop
        rcases hop with h | h
        · exact Or.inr (Or.inl ⟨_, h, by omega⟩)
        · exact Or.inr (Or.inr ⟨_, by rw [h, hlen], Int.natCast_nonneg _, hr⟩)
    · refine ⟨_, _, _, by simp only [hr, if_false]; rfl, ?_, fun x hx => Or.inl hx,
        fun h => h.elim, ?_⟩
      · rw [hl]; omega
      · intro op hop
        simp only [List.mem_singleton] at hop
        exact Or.inr (Or.inl ⟨_, hop, by omega⟩)

/-! ## The load loop: one iteration and the loop invariant -/

theorem OpOk.mono {n m : Nat} (h : n ≤ m) {op : Op} (hop : OpOk n op) : OpOk m op := by
  cases op <;> simp only [OpOk] at hop ⊢ <;> first
    | exact hop
    | exact ⟨hop.1, hop.2.1, hop.2.2.1, le_trans hop.2.2.2.1 h, hop.2.2.2.2⟩

theorem IsSampleOp.ok {ns : Nat} {id : aku_ParamId} {op : Op} (n : Nat)
    (h : IsSampleOp ns id op) : OpOk n op := by
  rcases h with h | ⟨v, h, h10⟩ | ⟨rix, h, h0, h1⟩ <;> subst h <;> simp [OpOk, *]

theorem IsSampleOp.sample? {ns : Nat} {id : aku_ParamId} {op : Op}
    (h : IsSampleOp ns id op) : op.sample? = none := by
  rcases h with h | ⟨v, h, _⟩ | ⟨rix, h, _, _⟩ <;> subst h <;> rfl

theorem IsSampleOp.appendIx? {ns : Nat} {id : aku_ParamId} {op : Op}
    (h : IsSampleOp ns id op) : op.appendIx? = none := by
  rcases h with h | ⟨v, h, _⟩ | ⟨rix, h, _, _⟩ <;> subst h <;> rfl

theorem IsSampleOp.drawn? {ns : Nat} {id : aku_ParamId} {op : Op}
    (h : IsSampleOp ns id op) : op.drawn? = none := by
  rcases h with h | ⟨v, h, _⟩ | ⟨rix, h, _, _⟩ <;> subst h <;> rfl

/-- One iteration of the load loop never fails on a well-formed state, and
issues: the optional draw of `rr`, the `append` on `trees[rr % 10000]` (whose
series id is the index) with `ts = value = i`, the flush request when `append`
returned true, then the reservoir step. -/
theorem loadBody_spec (rand : Nat → Nat) (ar : Nat → Bool) (ts : List NBTreeExtentsList)
    (st : LoadState) (i : Nat) (hT : TreesOk ts) (hn : st.nsamples < INT_MAX)
    (hl : st.ids.length = min st.nsamples 10) :
    ∃ t ids' nrand' sops,
      ts[(selectSeries rand st).1 % 10000]? = some t
      ∧ t.id = (selectSeries rand st).1 % 10000
      ∧ ids'.length = min (st.nsamples + 1) 10
      ∧ (∀ x ∈ ids', x ∈ st.ids ∨ x = (selectSeries rand st).1 % 10000)
      ∧ (∀ op ∈ sops, IsSampleOp st.nsamples ((selectSeries rand st).1 % 10000) op)
      ∧ loadBody rand ar ts st i
        = some ({ rr := ((selectSeries rand st).1 + 1) % SIZE_MOD,
                  nsamples := st.nsamples + 1, ids := ids', nrand := nrand' },
                (selectSeries rand st).2.2
                  ++ appendStep ((selectSeries rand st).1 % 10000) t i i (ar i) ++ sops) := by
  obtain ⟨hlen, hget⟩ := hT
  have hid : (selectSeries rand st).1 % 10000 < 10000 := Nat.mod_lt _ (by decide)
  obtain ⟨t, ht, htid⟩ := hget _ hid
  obtain ⟨ids', nrand', sops, hs, hl', hmem, _, hops⟩ :=
    sampleIds_spec rand st.nsamples st.ids (selectSeries rand st).2.1
      ((selectSeries rand st).1 % 10000) (Nat.le_of_lt hn) hl
  refine ⟨t, ids', nrand', sops, ht, htid, hl', hmem, hops, ?_⟩
  have hwrap : (st.nsamples + 1) % SIZE_MOD = st.nsamples + 1 := by
    apply Nat.mod_eq_of_lt
    unfold INT_MAX at hn
    unfold SIZE_MOD
    omega
  unfold loadBody
  simp only [hlen, ht, hs, hwrap]
  rfl

theorem selectSeries_ops_ok (rand : Nat → Nat) (st : LoadState) (n : Nat) :
    ∀ op ∈ (selectSeries rand st).2.2, OpOk n op := by
  intro op hop
  unfold selectSeries at hop
  split at hop
  · simp only [List.mem_singleton] at hop
    subst hop
    trivial
  · simp at hop

theorem selectSeries_sample? (rand : Nat → Nat) (st : LoadState) :
    (selectSeries rand st).2.2.filterMap Op.sample? = [] := by
  unfold selectSeries
  split <;> rfl

theorem appendStep_sample? (ix : Nat) (t : NBTreeExtentsList) (ts v : Nat) (r : Bool) :
    (appendStep ix t ts v r).filterMap Op.sample? = [(ts, v)] := by
  cases r <;> rfl

/-- The load loop runs to completion for every `n` that fits an `int`, and the
invariant holds of the state and operations it yields. -/
theorem loadLoop_inv (rand : Nat → Nat) (ar : Nat → Bool) (ts : List NBTreeExtentsList)
    (hT : TreesOk ts) (n : Nat) (hn : n ≤ INT_MAX) :
    ∃ st tr, loadLoop rand ar ts n = some (st, tr) ∧ LoadInv n st tr := by
  induction n with
  | zero =>
    refine ⟨LoadState.init, [], rfl, ⟨rfl, rfl, ?_, ?_, rfl⟩⟩
    · intro x hx; simp [LoadState.init] at hx
    · intro op hop; simp at hop
  | succ n ih =>
    obtain ⟨st, tr, hrun, hinv⟩ := ih (by omega)
    have hns : st.nsamples < INT_MAX := by rw [hinv.nsamples_eq]; omega
    have hl : st.ids.length = min st.nsamples 10 := by rw [hinv.nsamples_eq]; exact hinv.ids_length
    obtain ⟨t, ids', nrand', sops, ht, htid, hl', hmem, hops, hbody⟩ :=
      loadBody_spec rand ar ts st (n + 1) hT hns hl
    have hid : (selectSeries rand st).1 % 10000 < 10000 := Nat.mod_lt _ (by decide)
    refine ⟨_, _, by simp only [loadLoop, hrun, hbody]; rfl, ?_⟩
    constructor
    · simp [hinv.nsamples_eq]
    · simp only [hl', hinv.nsamples_eq]
    · intro x hx
      rcases hmem x hx with h | h
      · obtain ⟨hlt, a, v, r, hin⟩ := hinv.ids_mem x h
        exact ⟨hlt, a, v, r, List.mem_append_left _ hin⟩
      · subst h
        refine ⟨hid, n + 1, n + 1, ar (n + 1), ?_⟩
        simp [appendStep, htid]
    · intro op hop
      rcases List.mem_append.1 hop with h | h
      · exact (hinv.ops_ok op h).mono (Nat.le_succ n)
      · rcases List.mem_append.1 h with h | h
        · rcases List.mem_append.1 h with h | h
          · exact selectSeries_ops_ok rand st _ op h
          · unfold appendStep at h
            rcases List.mem_cons.1 h with h | h
            · subst h
              exact ⟨hid, htid, Nat.le_add_left 1 n, le_refl _, rfl⟩
            · split at h
              · simp only [List.mem_cons, List.mem_singleton, List.not_mem_nil, or_false] at h
                rcases h with h | h <;> subst h <;> trivial
              · simp at h
        · exact (hops op h).ok _
    · have hs : sops.filterMap Op.sample? = [] :=
        List.filterMap_eq_nil_iff.2 (fun a ha => (hops a ha).sample?)
      simp only [List.filterMap_append, hinv.samples, selectSeries_sample?, appendStep_sample?,
        hs, List.range'_1_concat, List.map_append, List.nil_append, List.append_nil,
        List.map_cons, List.map_nil]
      simp [Nat.add_comm]

theorem selectSeries_appendIx? (rand : Nat → Nat) (st : LoadState) :
    (selectSeries rand st).2.2.filterMap Op.appendIx? = [] := by
  unfold selectSeries
  split <;> rfl

theorem appendStep_appendIx? (ix : Nat) (t : NBTreeExtentsList) (ts v : Nat) (r : Bool) :
    (appendStep ix t ts v r).filterMap Op.appendIx? = [ix] := by
  cases r <;> rfl

theorem appendStep_drawn? (ix : Nat) (t : NBTreeExtentsList) (ts v : Nat) (r : Bool) :
    (appendStep ix t ts v r).filterMap Op.drawn? = [] := by
  cases r <;> rfl

theorem selectSeries_drawn? (rand : Nat → Nat) (st : LoadState) :
    ((selectSeries rand st).2.2.filterMap Op.drawn?).head?
      = if st.rr % 10000 = 0 then some (rand st.nrand) else none := by
  unfold selectSeries
  split <;> rfl

/-- Shape of one iteration `i` (from 1) of the load loop: the state it starts
from, the state it ends in and the operations it issues. -/
theorem loadIter_spec (rand : Nat → Nat) (ar : Nat → Bool) (ts : List NBTreeExtentsList)
    (hT : TreesOk ts) (i : Nat) (h1 : 1 ≤ i) (hi : i ≤ INT_MAX) :
    ∃ st tr st' t sops,
      loadLoop rand ar ts (i - 1) = some (st, tr)
      ∧ LoadInv (i - 1) st tr
      ∧ t.id = (selectSeries rand st).1 % 10000
      ∧ (∀ op ∈ sops, IsSampleOp (i - 1) ((selectSeries rand st).1 % 10000) op)
      ∧ st'.rr = ((selectSeries rand st).1 + 1) % SIZE_MOD
      ∧ loadLoop rand ar ts i = some (st', tr ++ ((selectSeries rand st).2.2
          ++ appendStep ((selectSeries rand st).1 % 10000) t i i (ar i) ++ sops))
      ∧ loadIterOps rand ar ts i = some ((selectSeries rand st).2.2
          ++ appendStep ((selectSeries rand st).1 % 10000) t i i (ar i) ++ sops) := by
  obtain ⟨st, tr, hrun, hinv⟩ := loadLoop_inv rand ar ts hT (i - 1) (by omega)
  have hns : st.nsamples < INT_MAX := by rw [hinv.nsamples_eq]; omega
  have hl : st.ids.length = min st.nsamples 10 := by rw [hinv.nsamples_eq]; exact hinv.ids_length
  obtain ⟨t, ids', nrand', sops, _, htid, _, _, hops, hbody⟩ :=
    loadBody_spec rand ar ts st i hT hns hl
  rw [hinv.nsamples_eq] at hops
  refine ⟨st, tr, LoadState.mk (((selectSeries rand st).1 + 1) % SIZE_MOD) (st.nsamples + 1)
    ids' nrand', t, sops, hrun, hinv, htid, hops, rfl, ?_, ?_⟩
  · obtain ⟨k, rfl⟩ : ∃ k, i = k + 1 := ⟨i - 1, by omega⟩
    simp only [Nat.add_sub_cancel] at hrun
    simp only [loadLoop, hrun, hbody]
  · simp only [loadIterOps, hrun, hbody]

/-- The id selected and the value drawn in iteration `i`, read off the state
the iteration starts from. -/
theorem loadIter_obs (rand : Nat → Nat) (ar : Nat → Bool) (ts : List NBTreeExtentsList)
    (hT : TreesOk ts) (i : Nat) (h1 : 1 ≤ i) (hi : i ≤ INT_MAX) :
    ∃ st tr st' tr',
      loadLoop rand ar ts (i - 1) = some (st, tr)
      ∧ loadLoop rand ar ts i = some (st', tr')
      ∧ st'.rr = ((selectSeries rand st).1 + 1) % SIZE_MOD
      ∧ selectedAt rand ar ts i = some ((selectSeries rand st).1 % 10000)
      ∧ drawnAt rand ar ts i
          = some (if st.rr % 10000 = 0 then some (rand st.nrand) else none) := by
  obtain ⟨st, tr, st', t, sops, hrun, _, _, hops, hrr, hrun', hiter⟩ :=
    loadIter_spec rand ar ts hT i h1 hi
  have hs1 : sops.filterMap Op.appendIx? = [] :=
    List.filterMap_eq_nil_iff.2 (fun a ha => (hops a ha).appendIx?)
  have hs2 : sops.filterMap Op.drawn? = [] :=
    List.filterMap_eq_nil_iff.2 (fun a ha => (hops a ha).drawn?)
  refine ⟨st, tr, st', _, hrun, hrun', hrr, ?_, ?_⟩
  · simp only [selectedAt, hiter, Option.some_bind, List.filterMap_append,
      selectSeries_appendIx?, appendStep_appendIx?, hs1, List.nil_append, List.append_nil,
      List.head?_cons]
  · simp only [drawnAt, hiter, Option.map_some', List.filterMap_append,
      appendStep_drawn?, hs2, List.append_nil, selectSeries_drawn?]

theorem selectSeries_mem (rand : Nat → Nat) (st : LoadState) (op : Op)
    (h : op ∈ (selectSeries rand st).2.2) : ∃ v, op = Op.randSeries v := by
  unfold selectSeries at h
  split at h
  · exact ⟨_, by simpa using h⟩
  · simp at h

/-- An operation that is neither a draw of `rr` nor part of the reservoir step
occurs in an iteration only inside its append step. -/
theorem iterOps_mem_iff (rand : Nat → Nat) (st : LoadState) (ix : Nat) (t : NBTreeExtentsList)
    (i v : Nat) (r : Bool) (sops : List Op) (ns : Nat) (id : aku_ParamId)
    (hops : ∀ op ∈ sops, IsSampleOp ns id op) (op : Op)
    (h1 : ∀ w, op ≠ Op.randSeries w) (h2 : ¬ IsSampleOp ns id op) :
    op ∈ (selectSeries rand st).2.2 ++ appendStep ix t i v r ++ sops
      ↔ op ∈ appendStep ix t i v r := by
  constructor
  · intro h
    rcases List.mem_append.1 h with h | h
    · rcases List.mem_append.1 h with h | h
      · obtain ⟨w, hw⟩ := selectSeries_mem rand st op h
        exact absurd hw (h1 w)
      · exact h
    · exact absurd (hops op h) h2
  · intro h
    exact List.mem_append_left _ (List.mem_append_right _ h)

/-- Every `append` of iteration `i` carries `ts = value = i`, returns
`ar i`, and goes to an index below 10000 whose series has that id. -/
theorem loadIterOps_append (rand : Nat → Nat) (ar : Nat → Bool) (ts : List NBTreeExtentsList)
    (hT : TreesOk ts) (i : Nat) (h1 : 1 ≤ i) (hi : i ≤ INT_MAX) (ops : List Op)
    (hops : loadIterOps rand ar ts i = some ops) (ix : Nat) (id : aku_ParamId) (t v : Nat)
    (r : Bool) (hmem : Op.append ix id t v r ∈ ops) :
    t = i ∧ v = i ∧ r = ar i ∧ ix < 10000 ∧ id = ix := by
  obtain ⟨st, tr, st', u, sops, _, _, hu, hs, _, _, hiter⟩ := loadIter_spec rand ar ts hT i h1 hi
  rw [hiter] at hops
  simp only [Option.some.injEq] at hops
  subst hops
  rw [iterOps_mem_iff rand st _ u i i (ar i) sops (i - 1) _ hs _ (by simp)
    (by simp [IsSampleOp])] at hmem
  have hid : (selectSeries rand st).1 % 10000 < 10000 := Nat.mod_lt _ (by decide)
  cases hr : ar i <;> simp [appendStep, hr] at hmem <;>
    exact ⟨hmem.2.2.1, hmem.2.2.2.1, hmem.2.2.2.2, by rw [hmem.1]; exact hid,
      by rw [hmem.1, hmem.2.1, hu]⟩

/-! ## Series selection: `rr` does not wrap, runs -/

theorem selectSeries_fst (rand : Nat → Nat) (st : LoadState) :
    (selectSeries rand st).1 = if st.rr % 10000 = 0 then rand st.nrand % SIZE_MOD else st.rr := by
  unfold selectSeries
  split <;> rfl

/-- With `rand()` of `int` range the cast to `size_t` keeps the value. -/
theorem selectSeries_fst_of_rand (rand : Nat → Nat) (hrand : ∀ k, rand k ≤ INT_MAX)
    (st : LoadState) :
    (selectSeries rand st).1 = if st.rr % 10000 = 0 then rand st.nrand else st.rr := by
  rw [selectSeries_fst]
  have hr := hrand st.nrand
  have hmod : rand st.nrand % SIZE_MOD = rand st.nrand := by
    apply Nat.mod_eq_of_lt
    unfold INT_MAX at hr
    unfold SIZE_MOD
    omega
  rw [hmod]

/-- With `rand()` of `int` range and `rr` below the bound, `rr++` does not wrap. -/
theorem selectSeries_no_wrap (rand : Nat → Nat) (hrand : ∀ k, rand k ≤ INT_MAX)
    (st : LoadState) (hb : st.rr ≤ 2147490000) :
    (selectSeries rand st).1 < 2147490000
      ∧ ((selectSeries rand st).1 + 1) % SIZE_MOD = (selectSeries rand st).1 + 1 := by
  have hr := hrand st.nrand
  unfold INT_MAX at hr
  have hlt : (selectSeries rand st).1 < 2147490000 := by
    rw [selectSeries_fst_of_rand rand hrand]
    split <;> omega
  refine ⟨hlt, Nat.mod_eq_of_lt ?_⟩
  unfold SIZE_MOD
  omega

/-- While `rand()` yields values of `int` range, `rr` stays far below the
wrap-around of `size_t`: a run started at a drawn value ends at the next
multiple of 10000. -/
theorem loadLoop_rr_bound (rand : Nat → Nat) (ar : Nat → Bool) (ts : List NBTreeExtentsList)
    (hT : TreesOk ts) (hrand : ∀ k, rand k ≤ INT_MAX) (n : Nat) (hn : n ≤ INT_MAX) :
    ∀ st tr, loadLoop rand ar ts n = some (st, tr) → st.rr ≤ 2147490000 := by
  induction n with
  | zero =>
    intro st tr h
    simp only [loadLoop, Option.some.injEq, Prod.mk.injEq] at h
    rw [← h.1]
    simp [LoadState.init]
  | succ n ih =>
    intro st' tr' h
    obtain ⟨st, tr, st'', t, sops, hrun, _, _, _, hrr, hrun', _⟩ :=
      loadIter_spec rand ar ts hT (n + 1) (Nat.le_add_left 1 n) hn
    simp only [Nat.add_sub_cancel] at hrun
    rw [hrun'] at h
    simp only [Option.some.injEq, Prod.mk.injEq] at h
    have hb := ih (by omega) st tr hrun
    obtain ⟨hlt, hw⟩ := selectSeries_no_wrap rand hrand st hb
    rw [← h.1, hrr, hw]
    omega

/-- First iteration: `rr = 0`, so `rand()` is drawn. -/
theorem select_first (rand : Nat → Nat) (ar : Nat → Bool) (ts : List NBTreeExtentsList)
    (hT : TreesOk ts) :
    selectedAt rand ar ts 1 = some (rand 0 % SIZE_MOD % 10000)
      ∧ drawnAt rand ar ts 1 = some (some (rand 0)) := by
  obtain ⟨st, tr, st', tr', hrun, _, _, hsel, hdr⟩ :=
    loadIter_obs rand ar ts hT 1 (le_refl 1) (by unfold INT_MAX; omega)
  simp only [Nat.sub_self, loadLoop, Option.some.injEq, Prod.mk.injEq] at hrun
  rw [← hrun.1] at hsel hdr
  rw [selectSeries_fst] at hsel
  exact ⟨by simpa [LoadState.init] using hsel, by simpa [LoadState.init] using hdr⟩

/-- Later iterations: `rand()` is drawn exactly after an iteration that
selected id 9999; otherwise the id is the previous id plus one. -/
theorem select_step (rand : Nat → Nat) (ar : Nat → Bool) (ts : List NBTreeExtentsList)
    (hT : TreesOk ts) (hrand : ∀ k, rand k ≤ INT_MAX) (i : Nat) (h2 : 2 ≤ i)
    (hi : i ≤ INT_MAX) :
    ∃ p id d, selectedAt rand ar ts (i - 1) = some p
      ∧ selectedAt rand ar ts i = some id
      ∧ drawnAt rand ar ts i = some d
      ∧ p < 10000 ∧ id < 10000
      ∧ (d.isSome ↔ p = 9999)
      ∧ (d = none → id = p + 1)
      ∧ (∀ v, d = some v → id = v % 10000 ∧ ∃ k, v = rand k) := by
  obtain ⟨st0, tr0, st1, tr1, hrun0, hrun1, hrr1, hsel0, _⟩ :=
    loadIter_obs rand ar ts hT (i - 1) (by omega) (by omega)
  obtain ⟨st, tr, st2, tr2, hrun, _, _, hsel, hdr⟩ :=
    loadIter_obs rand ar ts hT i (by omega) hi
  rw [hrun1] at hrun
  simp only [Option.some.injEq, Prod.mk.injEq] at hrun
  obtain ⟨rfl, rfl⟩ := hrun
  have hb0 := loadLoop_rr_bound rand ar ts hT hrand (i - 1 - 1) (by omega) st0 tr0 hrun0
  obtain ⟨_, hw⟩ := selectSeries_no_wrap rand hrand st0 hb0
  rw [hw] at hrr1
  have hs1 := selectSeries_fst_of_rand rand hrand st1
  refine ⟨_, _, _, hsel0, hsel, hdr, Nat.mod_lt _ (by decide), Nat.mod_lt _ (by decide), ?_, ?_, ?_⟩
  · by_cases hz : st1.rr % 10000 = 0
    · simp only [hz, if_true, Option.isSome_some, true_iff]
      omega
    · simp only [hz, if_false, Option.isSome_none, false_iff, Bool.false_eq_true]
      omega
  · intro hd
    by_cases hz : st1.rr % 10000 = 0
    · simp [hz] at hd
    · rw [if_neg hz] at hs1
      omega
  · intro v hv
    by_cases hz : st1.rr % 10000 = 0
    · simp only [hz, if_true, Option.some.injEq] at hv
      rw [if_pos hz] at hs1
      subst hv
      exact ⟨by omega, _, rfl⟩
    · simp [hz] at hv

/-- A run: from an iteration that drew `v`, the following iterations select
`v % 10000 + 1`, `v % 10000 + 2`, ... up to 9999. -/
theorem select_run (rand : Nat → Nat) (ar : Nat → Bool) (ts : List NBTreeExtentsList)
    (hT : TreesOk ts) (hrand : ∀ k, rand k ≤ INT_MAX) (i : Nat) (h1 : 1 ≤ i) (r : Nat)
    (hsel : selectedAt rand ar ts i = some r) (k : Nat) (hk : r + k ≤ 9999)
    (hi : i + k ≤ INT_MAX) : selectedAt rand ar ts (i + k) = some (r + k) := by
  induction k with
  | zero => exact hsel
  | succ k ih =>
    have hprev := ih (by omega) (by omega)
    obtain ⟨p, id, d, hp, hid, _, _, _, hiff, hnone, _⟩ :=
      select_step rand ar ts hT hrand (i + (k + 1)) (by omega) hi
    have hidx : i + (k + 1) - 1 = i + k := by omega
    rw [hidx, hprev] at hp
    simp only [Option.some.injEq] at hp
    subst hp
    have hd : d = none := by
      cases d with
      | none => rfl
      | some v =>
        have := hiff.1 rfl
        omega
    rw [hid, hnone hd]
    rfl

theorem N_le_INT_MAX : N ≤ INT_MAX := by
  unfold N INT_MAX
  omega

/-- The load loop of the driver (`N` iterations over `trees`) completes and
satisfies the invariant. -/
theorem load_inv (rand : Nat → Nat) (ar : Nat → Bool) :
    ∃ st tr, loadLoop rand ar trees N = some (st, tr) ∧ LoadInv N st tr :=
  loadLoop_inv rand ar trees trees_ok N N_le_INT_MAX

theorem pairwise_samples_range (n : Nat) :
    ((List.range' 1 n).map (fun i => (i, i))).Pairwise
      (fun (p q : aku_Timestamp × Nat) => p.1 < q.1) := by
  rw [List.pairwise_map]
  exact List.pairwise_lt_range' 1 n

/-! ## Claims about the load loop -/

/-- C1: for every outcome of `rand()` and every series id, the timestamps of
the `append` calls the load loop issues to that series are strictly increasing
in call order: of two appends to the same id, the earlier carries the smaller
timestamp; in particular when iterations `i < j` append to the same id, the
timestamp of iteration `i` is below that of iteration `j`. -/
theorem C1_append_timestamps_increasing (rand : Nat → Nat) (appendRet : Nat → Bool) :
    (∃ st tr, loadLoop rand appendRet trees N = some (st, tr)
      ∧ tr.Pairwise (fun a b => ∀ ix id t v r ix' t' v' r',
          a = Op.append ix id t v r → b = Op.append ix' id t' v' r' → t < t'))
    ∧ (∀ i j, 1 ≤ i → i < j → j ≤ N →
        ∃ opsi opsj, loadIterOps rand appendRet trees i = some opsi
          ∧ loadIterOps rand appendRet trees j = some opsj
          ∧ ∀ ix id t v r ix' t' v' r', Op.append ix id t v r ∈ opsi →
              Op.append ix' id t' v' r' ∈ opsj → t < t') := by
  constructor
  · obtain ⟨st, tr, hrun, hinv⟩ := load_inv rand appendRet
    refine ⟨st, tr, hrun, ?_⟩
    have h := pairwise_samples_range N
    rw [← hinv.samples, List.pairwise_filterMap] at h
    refine h.imp ?_
    intro a b hab ix id t v r ix' t' v' r' ha hb
    subst ha
    subst hb
    exact hab (t, v) rfl (t', v') rfl
  · intro i j h1 hij hjN
    have hj : j ≤ INT_MAX := le_trans hjN N_le_INT_MAX
    obtain ⟨_, _, _, _, _, _, _, _, _, _, _, hi'⟩ :=
      loadIter_spec rand appendRet trees trees_ok i h1 (by omega)
    obtain ⟨_, _, _, _, _, _, _, _, _, _, _, hj'⟩ :=
      loadIter_spec rand appendRet trees trees_ok j (by omega) hj
    refine ⟨_, _, hi', hj', ?_⟩
    intro ix id t v r ix' t' v' r' hmi hmj
    have hti := (loadIterOps_append rand appendRet trees trees_ok i h1 (by omega) _ hi'
      ix id t v r hmi).1
    have htj := (loadIterOps_append rand appendRet trees trees_ok j (by omega) hj _ hj'
      ix' id t' v' r' hmj).1
    rw [hti, htj]
    exact hij

/-- C7: the load loop issues exactly `N = 500000000` appends and ends with
`nsamples = N`; the `i`-th append carries timestamp `i` and value `i`, every
timestamp of `1..N` is appended exactly once, and every appended timestamp lies
strictly between the bounds `0` and `N + 1` that `search` is later called with. -/
theorem C7_appends_are_one_to_N (rand : Nat → Nat) (appendRet : Nat → Bool) :
    N = 500000000
      ∧ (∃ st tr, loadLoop rand appendRet trees N = some (st, tr)
        ∧ st.nsamples = N
        ∧ (tr.filterMap Op.sample?).length = N
        ∧ tr.filterMap Op.sample? = (List.range' 1 N).map (fun i => (i, i))
        ∧ (∀ i, i < N → (tr.filterMap Op.sample?)[i]? = some (i + 1, i + 1))
        ∧ (∀ t, 1 ≤ t → t ≤ N → ((tr.filterMap Op.sample?).map Prod.fst).count t = 1)
        ∧ (∀ ix id t v r, Op.append ix id t v r ∈ tr → 0 < t ∧ t < N + 1 ∧ v = t))
      ∧ (∀ (iter : Nat → Nat → aku_Status × Nat) (fuel j : Nat) (id : aku_ParamId) (ops : List Op),
          searchBody trees iter fuel j id = some ops →
          ∀ ix sid a b, Op.search ix sid a b ∈ ops → a = N + 1 ∧ b = 0) := by
  refine ⟨rfl, ?_, ?_⟩
  · obtain ⟨st, tr, hrun, hinv⟩ := load_inv rand appendRet
    refine ⟨st, tr, hrun, hinv.nsamples_eq, ?_, hinv.samples, ?_, ?_, ?_⟩
    · rw [hinv.samples, List.length_map, List.length_range']
    · intro i hi
      rw [hinv.samples, List.getElem?_map, List.getElem?_range' 1 1 hi]
      simp [Nat.add_comm]
    · intro t h1 h2
      have hmap : ((List.range' 1 N).map (fun i => (i, i))).map Prod.fst = List.range' 1 N := by
        rw [List.map_map]
        exact List.map_id _
      rw [hinv.samples, hmap]
      exact List.count_eq_one_of_mem (List.nodup_range' 1 N)
        (List.mem_range'_1.2 ⟨h1, by omega⟩)
    · intro ix id t v r hmem
      have h := hinv.ops_ok _ hmem
      simp only [OpOk] at h
      exact ⟨h.2.2.1, Nat.lt_succ_of_le h.2.2.2.1, h.2.2.2.2⟩
  · intro iter fuel j id ops hops ix sid a b hmem
    unfold searchBody at hops
    split at hops
    · exact absurd hops (by simp)
    · dsimp only at hops
      split at hops
      · exact absurd hops (by simp)
      · simp only [Option.some.injEq] at hops
        subst hops
        simp only [List.mem_cons, Op.search.injEq, List.mem_map] at hmem
        rcases hmem with ⟨_, _, h1, h2⟩ | ⟨_, _, h⟩
        · exact ⟨h1, h2⟩
        · exact absurd h (by simp)

/-- C8: for every outcome of `rand()`, after the load loop `ids` has exactly 10
entries, each a series id below 10000 that received an append in the loop;
`rand() % nsamples` is evaluated only with `nsamples ≥ 10`, and `ids[rix]` is
written only with `0 ≤ rix < 10 = ids.size()`. The loop never reaches undefined
behaviour (it yields a result). -/
theorem C8_ids_sampling_safe (rand : Nat → Nat) (appendRet : Nat → Bool) :
    ∃ st tr, loadLoop rand appendRet trees N = some (st, tr)
      ∧ st.ids.length = 10
      ∧ (∀ id ∈ st.ids, id < 10000 ∧ ∃ ts v r, Op.append id id ts v r ∈ tr)
      ∧ (∀ v nsamples, Op.randSample v nsamples ∈ tr → 10 ≤ nsamples)
      ∧ (∀ rix size id, Op.idsWrite rix size id ∈ tr → 0 ≤ rix ∧ rix < 10 ∧ size = 10) := by
  obtain ⟨st, tr, hrun, hinv⟩ := load_inv rand appendRet
  refine ⟨st, tr, hrun, ?_, hinv.ids_mem, ?_, ?_⟩
  · rw [hinv.ids_length]
    unfold N
    omega
  · intro v ns hmem
    exact hinv.ops_ok _ hmem
  · intro rix size id hmem
    exact hinv.ops_ok _ hmem

/-- C3: in every iteration `i` of the producer loop, `flush_needed = true` and
`cvar.notify_one()` are executed if and only if the `append` of that iteration
returned true; the producer loop never calls `bstore->flush()` itself: only
`flush_fn` does, after a wake-up that finds the flag set. -/
theorem C3_flush_requested_iff_append_true (rand : Nat → Nat) (appendRet : Nat → Bool)
    (i : Nat) (h1 : 1 ≤ i) (hN : i ≤ N) :
    (∃ ops ix id, loadIterOps rand appendRet trees i = some ops
      ∧ Op.append ix id i i (appendRet i) ∈ ops
      ∧ (∀ ix' id' t v r, Op.append ix' id' t v r ∈ ops → r = appendRet i)
      ∧ (Op.setFlushNeeded ∈ ops ↔ appendRet i = true)
      ∧ (Op.notify ∈ ops ↔ appendRet i = true)
      ∧ Op.flush ∉ ops)
    ∧ (∃ st tr, loadLoop rand appendRet trees N = some (st, tr) ∧ Op.flush ∉ tr)
    ∧ (∀ flag, Op.flush ∈ (flush_fn flag).2 ↔ flag = true) := by
  refine ⟨?_, ?_, ?_⟩
  · obtain ⟨st, tr, st', t, sops, _, _, _, hops, _, _, hiter⟩ :=
      loadIter_spec rand appendRet trees trees_ok i h1 (le_trans hN N_le_INT_MAX)
    have key := iterOps_mem_iff rand st ((selectSeries rand st).1 % 10000) t i i (appendRet i)
      sops (i - 1) ((selectSeries rand st).1 % 10000) hops
    refine ⟨_, (selectSeries rand st).1 % 10000, t.id, hiter, ?_, ?_, ?_, ?_, ?_⟩
    · rw [key _ (by simp) (by simp [IsSampleOp])]
      simp [appendStep]
    · intro ix' id' a v r hmem
      rw [key _ (by simp) (by simp [IsSampleOp])] at hmem
      cases hr : appendRet i <;> simp [appendStep, hr] at hmem <;> exact hmem.2.2.2.2
    · rw [key _ (by simp) (by simp [IsSampleOp])]
      cases hr : appendRet i <;> simp [appendStep]
    · rw [key _ (by simp) (by simp [IsSampleOp])]
      cases hr : appendRet i <;> simp [appendStep]
    · rw [key _ (by simp) (by simp [IsSampleOp])]
      cases hr : appendRet i <;> simp [appendStep]
  · obtain ⟨st, tr, hrun, hinv⟩ := load_inv rand appendRet
    exact ⟨st, tr, hrun, fun hmem => hinv.ops_ok _ hmem⟩
  · intro flag
    cases flag <;> simp [flush_fn]

/-- C10: with `rand()` outcomes of `int` range (so `rr` never wraps), series
selection proceeds in runs: iteration `i` draws `rand()` for `rr` exactly when
it is the first iteration or iteration `i - 1` selected id 9999; otherwise its
id is the previous id plus one. An iteration that drew `v` selects `v % 10000`
and the following iterations select `v % 10000 + 1, ..., 9999` (as far as the
loop goes); id 0 is selected only by an iteration that drew a multiple of
10000. -/
theorem C10_series_selection_runs (rand : Nat → Nat) (appendRet : Nat → Bool)
    (hrand : ∀ k, rand k ≤ INT_MAX) (i : Nat) (h1 : 1 ≤ i) (hN : i ≤ N) :
    ∃ id d, selectedAt rand appendRet trees i = some id
      ∧ drawnAt rand appendRet trees i = some d
      ∧ id < 10000
      ∧ (d.isSome ↔ (i = 1 ∨ selectedAt rand appendRet trees (i - 1) = some 9999))
      ∧ (d = none → ∃ p, selectedAt rand appendRet trees (i - 1) = some p ∧ id = p + 1)
      ∧ (∀ v, d = some v → (∃ k, v = rand k) ∧ id = v % 10000
          ∧ ∀ k, v % 10000 + k ≤ 9999 → i + k ≤ N →
              selectedAt rand appendRet trees (i + k) = some (v % 10000 + k))
      ∧ (id = 0 → ∃ v, d = some v ∧ v % 10000 = 0) := by
  have hNI := N_le_INT_MAX
  by_cases hi : i = 1
  · subst hi
    obtain ⟨hsel, hdr⟩ := select_first rand appendRet trees trees_ok
    have hmod : rand 0 % SIZE_MOD = rand 0 := by
      apply Nat.mod_eq_of_lt
      have := hrand 0
      unfold INT_MAX at this
      unfold SIZE_MOD
      omega
    rw [hmod] at hsel
    refine ⟨_, _, hsel, hdr, Nat.mod_lt _ (by decide), ?_, ?_, ?_, ?_⟩
    · simp
    · intro h
      simp at h
    · intro v hv
      simp only [Option.some.injEq] at hv
      subst hv
      refine ⟨⟨0, rfl⟩, rfl, ?_⟩
      intro k hk hkN
      exact select_run rand appendRet trees trees_ok hrand 1 (le_refl 1) _ hsel k hk
        (le_trans hkN hNI)
    · intro h0
      exact ⟨_, rfl, h0⟩
  · obtain ⟨p, id, d, hp, hid, hd, _, hlt, hiff, hnone, hsome⟩ :=
      select_step rand appendRet trees trees_ok hrand i (by omega) (le_trans hN hNI)
    refine ⟨id, d, hid, hd, hlt, ?_, ?_, ?_, ?_⟩
    · rw [hiff, hp]
      simp [hi]
    · intro h
      exact ⟨p, hp, hnone h⟩
    · intro v hv
      obtain ⟨hv1, hv2⟩ := hsome v hv
      refine ⟨hv2, hv1, ?_⟩
      intro k hk hkN
      rw [hv1] at hid
      exact select_run rand appendRet trees trees_ok hrand i h1 _ hid k hk (le_trans hkN hNI)
    · intro h0
      cases d with
      | none =>
        have := hnone rfl
        omega
      | some v =>
        obtain ⟨hv1, _⟩ := hsome v rfl
        exact ⟨v, rfl, by omega⟩

/-! ## Claims about setup and indexing -/

/-- The operations of `main` once the load loop and the search loop have
yielded theirs. -/
theorem main_some (rand : Nat → Nat) (ar : Nat → Bool) (iter : Nat → Nat → aku_Status × Nat)
    (fuel : Nat) (st : LoadState) (load reads : List Op)
    (h1 : loadLoop rand ar trees N = some (st, load))
    (h2 : searchLoop trees iter fuel 0 st.ids = some reads) :
    main rand ar iter fuel = some ([Op.create createCall.1 createCall.2,
      Op.openStore openCall.1 openCall.2] ++ constructOps trees ++ load
      ++ [Op.setDone, Op.notify] ++ reads ++ closeLoop trees) := by
  simp only [main, h1, Option.bind_eq_bind, Option.some_bind, h2]
  rfl

theorem main_none (rand : Nat → Nat) (ar : Nat → Bool) (iter : Nat → Nat → aku_Status × Nat)
    (fuel : Nat) (st : LoadState) (load : List Op)
    (h1 : loadLoop rand ar trees N = some (st, load))
    (h2 : searchLoop trees iter fuel 0 st.ids = none) :
    main rand ar iter fuel = none := by
  simp only [main, h1, Option.bind_eq_bind, Option.some_bind, h2, Option.none_bind]

/-- C5: the paths passed to `FixedSizeFileStorage::open` are exactly the paths
of the volume specs passed to `create`, two of them in the same order, with
the same metadata path; both specs carry the capacity `1024*1024 = 1048576`,
which is not zero. These are the first two operations of the driver. -/
theorem C5_open_paths_match_create :
    openCall.2 = createCall.2.map Prod.snd
      ∧ openCall.2.length = 2
      ∧ createCall.2.length = 2
      ∧ openCall.1 = createCall.1
      ∧ (∀ v ∈ createCall.2, v.1 = 1024 * 1024 ∧ v.1 = 1048576 ∧ v.1 ≠ 0)
      ∧ (∀ rand appendRet iter fuel tr, main rand appendRet iter fuel = some tr →
          ∃ rest, tr = Op.create createCall.1 createCall.2
            :: Op.openStore openCall.1 openCall.2 :: rest) := by
  refine ⟨rfl, rfl, rfl, rfl, ?_, ?_⟩
  · intro v hv
    simp only [createCall, volumes, List.mem_cons, List.mem_singleton, List.not_mem_nil,
      or_false] at hv
    rcases hv with h | h <;> subst h <;> simp
  · intro rand appendRet iter fuel tr h
    obtain ⟨st, load, hrun, _⟩ := load_inv rand appendRet
    cases hs : searchLoop trees iter fuel 0 st.ids with
    | none =>
      rw [main_none rand appendRet iter fuel st load hrun hs] at h
      exact absurd h (by simp)
    | some reads =>
      rw [main_some rand appendRet iter fuel st load reads hrun hs] at h
      simp only [Option.some.injEq] at h
      refine ⟨constructOps trees ++ load ++ [Op.setDone, Op.notify] ++ reads
        ++ closeLoop trees, ?_⟩
      rw [← h]
      simp only [List.cons_append, List.nil_append, List.append_assoc]

/-- C9: the driver constructs exactly 10000 series; the one at index `i` of
`trees` has id `i` (ids `0..9999`, all distinct) and is built from an empty
address list. For every outcome of `rand()` the id of every load-loop
iteration is below 10000, so every `trees[id]` access of the load loop and of
the search loop over `ids` is in bounds and reaches the series with id `id`. -/
theorem C9_trees_indexing_in_bounds :
    numids = 10000
      ∧ trees.length = 10000
      ∧ (∀ i, i < 10000 → trees[i]? = some { id := i, addrs := [], bstore := bstore })
      ∧ trees.map (fun t => t.id) = List.range 10000
      ∧ (trees.map (fun t => t.id)).Nodup
      ∧ constructOps trees = (List.range 10000).map (fun i => Op.construct i [])
      ∧ (∀ (rand : Nat → Nat) (appendRet : Nat → Bool),
          ∃ st tr, loadLoop rand appendRet trees N = some (st, tr)
            ∧ (∀ ix id ts v r, Op.append ix id ts v r ∈ tr →
                ix < 10000 ∧ id = ix ∧ ∃ t, trees[ix]? = some t ∧ t.id = ix)
            ∧ (∀ i, 1 ≤ i → i ≤ N →
                ∃ id, selectedAt rand appendRet trees i = some id ∧ id < 10000)
            ∧ (∀ id ∈ st.ids, id < 10000
                ∧ trees[id]? = some { id := id, addrs := [], bstore := bstore })) := by
  have hmap : trees.map (fun t => t.id) = List.range 10000 := by
    simp only [trees, buildTrees, numids, List.map_map]
    exact List.map_id _
  refine ⟨rfl, trees_length, trees_getElem?, hmap, ?_, ?_, ?_⟩
  · rw [hmap]
    exact List.nodup_range 10000
  · simp only [constructOps, trees, buildTrees, numids, List.map_map]
    rfl
  · intro rand appendRet
    obtain ⟨st, tr, hrun, hinv⟩ := load_inv rand appendRet
    refine ⟨st, tr, hrun, ?_, ?_, ?_⟩
    · intro ix id ts v r hmem
      have h := hinv.ops_ok _ hmem
      simp only [OpOk] at h
      exact ⟨h.1, h.2.1, _, trees_getElem? ix h.1, rfl⟩
    · intro i h1 hN
      obtain ⟨_, _, _, _, _, _, _, hsel, _⟩ :=
        loadIter_obs rand appendRet trees trees_ok i h1 (le_trans hN N_le_INT_MAX)
      exact ⟨_, hsel, Nat.mod_lt _ (by decide)⟩
    · intro id hid
      have h := (hinv.ids_mem id hid).1
      exact ⟨h, trees_getElem? id h⟩

/-! ## The read loop -/

theorem ReadInv.init (res : Nat → aku_Status × Nat) : ReadInv res ReadState.init :=
  ⟨rfl, rfl, rfl, fun k hk => absurd hk (by simp [ReadState.init])⟩

theorem ReadInv.last {res : Nat → aku_Status × Nat} {st : ReadState} (h : ReadInv res st)
    (m : Nat) (hm : st.reads.length = m + 1) : st.status = (res m).1 := by
  have h1 := h.reads_eq
  rw [hm, List.range_succ, List.map_append] at h1
  rw [h.status_eq, h1]
  simp

theorem ReadInv.body {res : Nat → aku_Status × Nat} {st : ReadState} (h : ReadInv res st)
    (hs : st.status = AKU_SUCCESS) : ReadInv res (readBody res st) := by
  constructor
  · simp only [readBody, List.length_append, List.length_singleton, List.range_succ,
      List.map_append, List.map_cons, List.map_nil]
    rw [← h.reads_eq]
  · simp [readBody]
  · simp only [readBody, List.map_append, List.sum_append, List.map_cons, List.map_nil,
      List.sum_cons, List.sum_nil, Nat.add_zero]
    rw [h.total_eq, Nat.mod_add_mod]
  · intro k hk
    simp only [readBody, List.length_append, List.length_singleton] at hk
    by_cases hlt : k + 1 < st.reads.length
    · exact h.prev_ok k hlt
    · have hm : st.reads.length = k + 1 := by omega
      rw [← h.last k hm]
      exact hs

theorem readLoop_inv (res : Nat → aku_Status × Nat) (fuel : Nat) :
    ∀ st, ReadInv res st → ReadInv res (readLoop res fuel st) := by
  induction fuel with
  | zero => intro st h; exact h
  | succ fuel ih =>
    intro st h
    unfold readLoop
    split
    · rename_i hs
      exact ih _ (h.body hs)
    · exact h

/-- A read loop still at `AKU_SUCCESS` after `fuel` iterations made `fuel` calls. -/
theorem readLoop_length_of_success (res : Nat → aku_Status × Nat) (fuel : Nat) :
    ∀ st, (readLoop res fuel st).status = AKU_SUCCESS →
      (readLoop res fuel st).reads.length = st.reads.length + fuel := by
  induction fuel with
  | zero => intro st _; rfl
  | succ fuel ih =>
    intro st h
    unfold readLoop at h ⊢
    split
    · rename_i hs
      rw [if_pos hs] at h
      rw [ih _ h]
      simp only [readBody, List.length_append, List.length_singleton]
      omega
    · rename_i hs
      rw [if_neg hs] at h
      exact absurd h hs

/-- The read loop makes at most `fuel` calls in `fuel` iterations. -/
theorem readLoop_length_le (res : Nat → aku_Status × Nat) (fuel : Nat) :
    ∀ st, (readLoop res fuel st).reads.length ≤ st.reads.length + fuel := by
  induction fuel with
  | zero => intro st; exact le_refl _
  | succ fuel ih =>
    intro st
    unfold readLoop
    split
    · have h := ih (readBody res st)
      have hl : (readBody res st).reads.length = st.reads.length + 1 := by
        simp only [readBody, List.length_append, List.length_singleton]
      rw [hl] at h
      omega
    · omega

/-- A read loop ends within `fuel` iterations when one of the first `fuel`
results of the iterator is not `AKU_SUCCESS`. -/
theorem readLoop_ends (res : Nat → aku_Status × Nat) (fuel : Nat)
    (h : ∃ k, k < fuel ∧ (res k).1 ≠ AKU_SUCCESS) :
    (readLoop res fuel ReadState.init).status ≠ AKU_SUCCESS := by
  intro hs
  obtain ⟨k, hk, hne⟩ := h
  have hinv := readLoop_inv res fuel _ (ReadInv.init res)
  have hlen := readLoop_length_of_success res fuel _ hs
  rw [show ReadState.init.reads.length = 0 from rfl, Nat.zero_add] at hlen
  by_cases hlt : k + 1 < fuel
  · exact hne (hinv.prev_ok k (by rw [hlen]; exact hlt))
  · have hm : (readLoop res fuel ReadState.init).reads.length = k + 1 := by omega
    exact hne (by rw [← hinv.last k hm]; exact hs)

/-- The read loop makes exactly `k + 1` calls when call `k` is the first one
whose status is not `AKU_SUCCESS`, whatever fuel above `k` it is given. -/
theorem readLoop_first_stop (res : Nat → aku_Status × Nat) (fuel k : Nat) (hk : k < fuel)
    (hne : (res k).1 ≠ AKU_SUCCESS) (hfirst : ∀ j, j < k → (res j).1 = AKU_SUCCESS) :
    (readLoop res fuel ReadState.init).reads.length = k + 1
      ∧ (readLoop res fuel ReadState.init).status = (res k).1 := by
  have hinv := readLoop_inv res fuel _ (ReadInv.init res)
  have hend := readLoop_ends res fuel ⟨k, hk, hne⟩
  have hpos : (readLoop res fuel ReadState.init).reads.length ≠ 0 := by
    intro h0
    apply hend
    rw [hinv.status_eq, List.length_eq_zero.1 h0]
    rfl
  obtain ⟨m, hm⟩ : ∃ m, (readLoop res fuel ReadState.init).reads.length = m + 1 :=
    ⟨_, (Nat.succ_pred_eq_of_ne_zero hpos).symm⟩
  have hlast := hinv.last m hm
  have hmk : m = k := by
    rcases Nat.lt_trichotomy m k with h | h | h
    · exact absurd (hlast.trans (hfirst m h)) hend
    · exact h
    · exact absurd (hinv.prev_ok k (by omega)) hne
  subst hmk
  exact ⟨hm, hlast⟩

/-- C4: for every sequence `res` of `(status, count)` results of an iterator,
the driver's read loop calls `read` again only while every previous call
returned `AKU_SUCCESS`: the calls made are the first results in order and all
but the last returned `AKU_SUCCESS`; once call `k` is the first to return
another status, exactly the calls `0..k` are made, however long the loop is
allowed to run. `total_sum` is the sum of the counts of all calls made, the
last one included, in `size_t` arithmetic: the sum itself whenever that is
below `2^64`. -/
theorem C4_read_loop_stops_at_first_non_success (res : Nat → aku_Status × Nat) (fuel : Nat) :
    (readLoop res fuel ReadState.init).reads
        = (List.range (readLoop res fuel ReadState.init).reads.length).map res
      ∧ (readLoop res fuel ReadState.init).reads.length ≤ fuel
      ∧ (∀ k, k + 1 < (readLoop res fuel ReadState.init).reads.length →
          (res k).1 = AKU_SUCCESS)
      ∧ (readLoop res fuel ReadState.init).total_sum
          = ((readLoop res fuel ReadState.init).reads.map Prod.snd).sum % SIZE_MOD
      ∧ (((readLoop res fuel ReadState.init).reads.map Prod.snd).sum < SIZE_MOD →
          (readLoop res fuel ReadState.init).total_sum
            = ((readLoop res fuel ReadState.init).reads.map Prod.snd).sum)
      ∧ (∀ k, (res k).1 ≠ AKU_SUCCESS → (∀ j, j < k → (res j).1 = AKU_SUCCESS) → k < fuel →
          (readLoop res fuel ReadState.init).reads = (List.range (k + 1)).map res
            ∧ (readLoop res fuel ReadState.init).status = (res k).1
            ∧ (readLoop res fuel ReadState.init).total_sum
                = (((List.range (k + 1)).map res).map Prod.snd).sum % SIZE_MOD) := by
  have hinv := readLoop_inv res fuel _ (ReadInv.init res)
  refine ⟨hinv.reads_eq, ?_, hinv.prev_ok, hinv.total_eq, ?_, ?_⟩
  · have h := readLoop_length_le res fuel ReadState.init
    rw [show ReadState.init.reads.length = 0 from rfl, Nat.zero_add] at h
    exact h
  · intro hlt
    rw [hinv.total_eq, Nat.mod_eq_of_lt hlt]
  · intro k hne hfirst hk
    obtain ⟨hlen, hst⟩ := readLoop_first_stop res fuel k hk hne hfirst
    have hr := hinv.reads_eq
    rw [hlen] at hr
    refine ⟨hr, hst, ?_⟩
    rw [hinv.total_eq, hr]

/-! ## The search loop, the close loop and the whole driver -/

theorem IsSearchOp.search_not_close {op : Op} (h : IsSearchOp op) : op.isClose = false := by
  rcases h with ⟨_, _, _, _, h⟩ | ⟨_, _, _, _, h⟩ <;> subst h <;> rfl

theorem OpOk.load_not_close {n : Nat} {op : Op} (h : OpOk n op) : op.isClose = false := by
  cases op <;> first | rfl | exact absurd h (by simp [OpOk])

theorem closeLoop_eq (ts : List NBTreeExtentsList) (hT : TreesOk ts) :
    closeLoop ts = (List.range 10000).map (fun i => Op.close i i) := by
  unfold closeLoop
  rw [hT.1, ← List.filterMap_eq_map]
  apply List.filterMap_congr
  intro i hi
  obtain ⟨t, ht, hid⟩ := hT.2 i (List.mem_range.1 hi)
  simp [ht, hid]

theorem searchBody_spec (ts : List NBTreeExtentsList) (hT : TreesOk ts)
    (iter : Nat → Nat → aku_Status × Nat) (fuel j : Nat) (id : aku_ParamId) (hid : id < 10000)
    (hend : ∃ k, k < fuel ∧ (iter j k).1 ≠ AKU_SUCCESS) :
    ∃ ops, searchBody ts iter fuel j id = some ops ∧ ∀ op ∈ ops, IsSearchOp op := by
  obtain ⟨t, ht, _⟩ := hT.2 id hid
  have hne := readLoop_ends (iter j) fuel hend
  refine ⟨_, by simp only [searchBody, ht, if_neg hne]; rfl, ?_⟩
  intro op hop
  rcases List.mem_cons.1 hop with h | h
  · exact Or.inl ⟨_, _, _, _, h⟩
  · obtain ⟨r, _, hr⟩ := List.mem_map.1 h
    exact Or.inr ⟨_, _, _, _, hr.symm⟩

theorem searchLoop_spec (ts : List NBTreeExtentsList) (hT : TreesOk ts)
    (iter : Nat → Nat → aku_Status × Nat) (fuel : Nat) (ids : List aku_ParamId) :
    ∀ j, (∀ id ∈ ids, id < 10000) →
      (∀ j', j ≤ j' → j' < j + ids.length → ∃ k, k < fuel ∧ (iter j' k).1 ≠ AKU_SUCCESS) →
      ∃ ops, searchLoop ts iter fuel j ids = some ops ∧ ∀ op ∈ ops, IsSearchOp op := by
  induction ids with
  | nil =>
    intro j _ _
    exact ⟨[], rfl, fun op hop => absurd hop (List.not_mem_nil op)⟩
  | cons id rest ih =>
    intro j hids hend
    obtain ⟨ops, hops, hall⟩ := searchBody_spec ts hT iter fuel j id
      (hids id (List.mem_cons_self id rest))
      (hend j (le_refl j) (by simp only [List.length_cons]; omega))
    obtain ⟨ops', hops', hall'⟩ := ih (j + 1)
      (fun x hx => hids x (List.mem_cons_of_mem id hx))
      (fun j' h1 h2 => hend j' (by omega) (by simp only [List.length_cons]; omega))
    refine ⟨ops ++ ops', by simp only [searchLoop, hops, hops'], ?_⟩
    intro op hop
    rcases List.mem_append.1 hop with h | h
    · exact hall op h
    · exact hall' op h

/-- The driver runs to completion when every iterator it reads yields a status
other than `AKU_SUCCESS` within `fuel` calls; its operations are those before
the close loop, none of which is a `close`, followed by one `close` for each of
the indices `0..9999` in order. -/
theorem main_spec (rand : Nat → Nat) (ar : Nat → Bool) (iter : Nat → Nat → aku_Status × Nat)
    (fuel : Nat) (hend : ∀ j, j < 10 → ∃ k, k < fuel ∧ (iter j k).1 ≠ AKU_SUCCESS) :
    ∃ pre, main rand ar iter fuel
        = some (pre ++ (List.range 10000).map (fun i => Op.close i i))
      ∧ ∀ op ∈ pre, op.isClose = false := by
  obtain ⟨st, load, hrun, hinv⟩ := load_inv rand ar
  have hlen : st.ids.length = 10 := by
    rw [hinv.ids_length]
    unfold N
    omega
  obtain ⟨reads, hreads, hall⟩ := searchLoop_spec trees trees_ok iter fuel st.ids 0
    (fun id hid => (hinv.ids_mem id hid).1)
    (fun j _ h2 => hend j (by omega))
  refine ⟨_, by rw [main_some rand ar iter fuel st load reads hrun hreads,
    closeLoop_eq trees trees_ok], ?_⟩
  intro op hop
  rcases List.mem_append.1 hop with h | h
  · rcases List.mem_append.1 h with h | h
    · rcases List.mem_append.1 h with h | h
      · rcases List.mem_append.1 h with h | h
        · simp only [List.mem_cons, List.mem_singleton, List.not_mem_nil, or_false] at h
          rcases h with h | h <;> subst h <;> rfl
        · obtain ⟨t, _, ht⟩ := List.mem_map.1 h
          subst ht
          rfl
      · exact (hinv.ops_ok op h).load_not_close
    · simp only [List.mem_cons, List.mem_singleton, List.not_mem_nil, or_false] at h
      rcases h with h | h <;> subst h <;> rfl
  · exact (hall op h).search_not_close

/-- C6: in the driver's sequence of operations (which is complete as soon as
every read loop ends), `close()` is called exactly once on each of the 10000
series and on nothing else, and no `append` or `search` on a series follows the
`close` of that series. -/
theorem C6_close_once_and_last (rand : Nat → Nat) (appendRet : Nat → Bool)
    (iter : Nat → Nat → aku_Status × Nat) (fuel : Nat)
    (hend : ∀ j, j < 10 → ∃ k, k < fuel ∧ (iter j k).1 ≠ AKU_SUCCESS) :
    ∃ tr, main rand appendRet iter fuel = some tr
      ∧ (∀ id, id < 10000 → tr.count (Op.close id id) = 1)
      ∧ (∀ ix id, Op.close ix id ∈ tr → ix < 10000 ∧ id = ix)
      ∧ (tr.filter Op.isClose).length = 10000
      ∧ tr.Pairwise (fun a b => ∀ ix id, a = Op.close ix id →
          (∀ ix' t v r, b ≠ Op.append ix' id t v r) ∧ (∀ ix' x y, b ≠ Op.search ix' id x y)) := by
  obtain ⟨pre, hmain, hpre⟩ := main_spec rand appendRet iter fuel hend
  have hcl : ∀ op ∈ (List.range 10000).map (fun i => Op.close i i), op.isClose = true := by
    intro op hop
    obtain ⟨i, _, hi⟩ := List.mem_map.1 hop
    subst hi
    rfl
  have hinj : Function.Injective (fun i : Nat => Op.close i i) := by
    intro a b hab
    simp only [Op.close.injEq, and_self] at hab
    exact hab
  refine ⟨_, hmain, ?_, ?_, ?_, ?_⟩
  · intro id hid
    rw [List.count_append]
    have h0 : pre.count (Op.close id id) = 0 := by
      apply List.count_eq_zero_of_not_mem
      intro hmem
      have := hpre _ hmem
      simp [Op.isClose] at this
    rw [h0, Nat.zero_add]
    exact List.count_eq_one_of_mem ((List.nodup_range 10000).map hinj)
      (List.mem_map.2 ⟨id, List.mem_range.2 hid, rfl⟩)
  · intro ix id hmem
    rcases List.mem_append.1 hmem with h | h
    · have := hpre _ h
      simp [Op.isClose] at this
    · obtain ⟨i, hi, he⟩ := List.mem_map.1 h
      simp only [Op.close.injEq] at he
      exact ⟨by rw [← he.1]; exact List.mem_range.1 hi, by rw [← he.1, ← he.2]⟩
  · rw [List.filter_append]
    have h1 : pre.filter Op.isClose = [] := by
      rw [List.filter_eq_nil_iff]
      intro a ha
      simp [hpre a ha]
    have h2 : ((List.range 10000).map (fun i => Op.close i i)).filter Op.isClose
        = (List.range 10000).map (fun i => Op.close i i) := by
      rw [List.filter_eq_self]
      exact hcl
    rw [h1, h2, List.nil_append, List.length_map, List.length_range]
  · rw [List.pairwise_append]
    refine ⟨?_, ?_, ?_⟩
    · apply List.pairwise_of_forall_mem_list
      intro a ha b _ ix id hac
      subst hac
      have := hpre _ ha
      simp [Op.isClose] at this
    · apply List.pairwise_of_forall_mem_list
      intro a _ b hb ix id _
      have hb' := hcl b hb
      constructor
      · intro ix' t v r hbe
        subst hbe
        simp [Op.isClose] at hb'
      · intro ix' x y hbe
        subst hbe
        simp [Op.isClose] at hb'
    · intro a ha b _ ix id hac
      subst hac
      have := hpre _ ha
      simp [Op.isClose] at this

/-! ## Concrete runs -/

theorem randOutcomes_le (k : Nat) : randOutcomes k ≤ INT_MAX := by
  unfold randOutcomes INT_MAX
  split
  · omega
  · split <;> omega

theorem iterThree_ends (j : Nat) (_ : j < 10) :
    ∃ k, k < 3 ∧ (iterThree j k).1 ≠ AKU_SUCCESS :=
  ⟨2, by decide, by simp [iterThree]⟩

/-- The first three iterations of the load loop on `trees` for the outcomes
9998, 4: a run 9998, 9999 and then a new draw. -/
theorem loadLoop_run_example :
    loadLoop randOutcomes appendEven trees 3
      = some ({ rr := 5, nsamples := 3, ids := [9998, 9999, 4], nrand := 2 },
          [Op.randSeries 9998, Op.append 9998 9998 1 1 false, Op.idsPush 9998,
            Op.append 9999 9999 2 2 true, Op.setFlushNeeded, Op.notify, Op.idsPush 9999,
            Op.randSeries 4, Op.append 4 4 3 3 false, Op.idsPush 4]) := by
  simp [loadLoop, loadBody, selectSeries, sampleIds, appendStep, LoadState.init, trees_length,
    trees_getElem, SIZE_MOD, randOutcomes, appendEven]

/-- The read loop on an iterator with two full batches and a last batch of 5:
three calls, `total_sum = 8197`, and more fuel changes nothing. -/
theorem readLoop_run_example :
    readLoop (iterThree 0) 3 ReadState.init
      = { status := AKU_ENO_DATA, total_sum := 8197,
          reads := [(AKU_SUCCESS, 4096), (AKU_SUCCESS, 4096), (AKU_ENO_DATA, 5)] }
    ∧ readLoop (iterThree 0) 7 ReadState.init = readLoop (iterThree 0) 3 ReadState.init
    ∧ (readLoop (iterThree 0) 2 ReadState.init).status = AKU_SUCCESS := by
  decide

/-- C4 at a concrete iterator: two full batches, then 5 entries with the
end-of-stream status; three calls are made and `total_sum = 4096 + 4096 + 5`. -/
theorem C4_read_loop_witness :
    (readLoop (iterThree 0) 3 ReadState.init).reads = (List.range (2 + 1)).map (iterThree 0)
      ∧ (readLoop (iterThree 0) 3 ReadState.init).status = (iterThree 0 2).1
      ∧ (readLoop (iterThree 0) 3 ReadState.init).total_sum
          = (((List.range (2 + 1)).map (iterThree 0)).map Prod.snd).sum % SIZE_MOD :=
  (C4_read_loop_stops_at_first_non_success (iterThree 0) 3).2.2.2.2.2 2 (by decide)
    (by decide) (by decide)

/-- Witness of C3 at the first iteration of a concrete run. -/
theorem C3_flush_requested_iff_append_true_witness :
    (1 ≤ 1 ∧ 1 ≤ N)
      ∧ ((∃ ops ix id, loadIterOps randOutcomes appendEven trees 1 = some ops
          ∧ Op.append ix id 1 1 (appendEven 1) ∈ ops
          ∧ (∀ ix' id' t v r, Op.append ix' id' t v r ∈ ops → r = appendEven 1)
          ∧ (Op.setFlushNeeded ∈ ops ↔ appendEven 1 = true)
          ∧ (Op.notify ∈ ops ↔ appendEven 1 = true)
          ∧ Op.flush ∉ ops)
        ∧ (∃ st tr, loadLoop randOutcomes appendEven trees N = some (st, tr) ∧ Op.flush ∉ tr)
        ∧ (∀ flag, Op.flush ∈ (flush_fn flag).2 ↔ flag = true)) :=
  ⟨⟨le_refl 1, by decide⟩,
    C3_flush_requested_iff_append_true randOutcomes appendEven 1 (le_refl 1) (by decide)⟩

/-- Witness of C10 at the second iteration of a concrete run: the first
iteration drew 9998, so the second keeps `rr` and selects 9999. -/
theorem C10_series_selection_runs_witness :
    (∀ k, randOutcomes k ≤ INT_MAX) ∧ 1 ≤ 2 ∧ 2 ≤ N
      ∧ ∃ id d, selectedAt randOutcomes appendEven trees 2 = some id
        ∧ drawnAt randOutcomes appendEven trees 2 = some d
        ∧ id < 10000
        ∧ (d.isSome ↔ (2 = 1 ∨ selectedAt randOutcomes appendEven trees (2 - 1) = some 9999))
        ∧ (d = none → ∃ p, selectedAt randOutcomes appendEven trees (2 - 1) = some p ∧ id = p + 1)
        ∧ (∀ v, d = some v → (∃ k, v = randOutcomes k) ∧ id = v % 10000
            ∧ ∀ k, v % 10000 + k ≤ 9999 → 2 + k ≤ N →
                selectedAt randOutcomes appendEven trees (2 + k) = some (v % 10000 + k))
        ∧ (id = 0 → ∃ v, d = some v ∧ v % 10000 = 0) :=
  ⟨randOutcomes_le, by decide, by decide,
    C10_series_selection_runs randOutcomes appendEven randOutcomes_le 2 (by decide)
      (by decide)⟩

/-- Witness of C6 for iterators that end at their third call. -/
theorem C6_close_once_and_last_witness :
    (∀ j, j < 10 → ∃ k, k < 3 ∧ (iterThree j k).1 ≠ AKU_SUCCESS)
      ∧ ∃ tr, main randOutcomes appendEven iterThree 3 = some tr
        ∧ (∀ id, id < 10000 → tr.count (Op.close id id) = 1)
        ∧ (∀ ix id, Op.close ix id ∈ tr → ix < 10000 ∧ id = ix)
        ∧ (tr.filter Op.isClose).length = 10000
        ∧ tr.Pairwise (fun a b => ∀ ix id, a = Op.close ix id →
            (∀ ix' t v r, b ≠ Op.append ix' id t v r)
              ∧ (∀ ix' x y, b ≠ Op.search ix' id x y)) :=
  ⟨iterThree_ends, C6_close_once_and_last randOutcomes appendEven iterThree 3 iterThree_ends⟩

end PerfNBTree
